import Mathlib

/-!
Verification development for the documentation crawler / doc-chat service
(`app.py`: `CapillaryDocScraper`, `server.py`: `DocBot`).

Python strings are modelled as lists of characters (`Str`).  The Python
string helpers used by the source (`str.lower`, `str.split`, `str.strip`,
`str.count`, the substring test `in`, `str.split(sep)`, `str.replace`) are
given explicit executable models below.  The crawler's network fetch and
HTML parse (requests / BeautifulSoup) are abstracted as an oracle in
`Config.fetch`; `urllib.parse.urljoin` and the netloc component of
`urllib.parse.urlparse` are likewise abstract functions in the `Config`,
since they are Python standard-library code, not code of this repository.
-/

abbrev Str : Type := List Char

/-- Python `s.lower()` (character-wise lowering). -/
def lowerStr (s : Str) : Str := s.map Char.toLower

/-- Python `needle in hay`: substring test. -/
def isSub (needle : Str) : Str → Bool
  | [] => needle.isEmpty
  | c :: t => needle.isPrefixOf (c :: t) || isSub needle t

/-- Helper for `splitWS`: accumulates the current word (reversed). -/
def splitWSAux : Str → Str → List Str
  | [], acc => if acc.isEmpty then [] else [acc.reverse]
  | c :: t, acc =>
    if c.isWhitespace then
      if acc.isEmpty then splitWSAux t [] else acc.reverse :: splitWSAux t []
    else splitWSAux t (c :: acc)

/-- Python `s.split()`: split on runs of whitespace, no empty tokens. -/
def splitWS (s : Str) : List Str := splitWSAux s []

/-- Python `hay.count(needle)`: number of non-overlapping occurrences,
scanning left to right (`"".count` inside a string of length n is n+1,
as in Python). -/
def countOcc : Str → Str → Nat
  | [], hay => hay.length + 1
  | _ :: _, [] => 0
  | n0 :: n, c :: t =>
    if (n0 :: n).isPrefixOf (c :: t) then 1 + countOcc (n0 :: n) (t.drop n.length)
    else countOcc (n0 :: n) t
termination_by _ hay => hay.length
decreasing_by
  · simp only [List.length_drop, List.length_cons]; omega
  · simp only [List.length_cons]; omega

/-- Python `s.strip()`: drop leading and trailing whitespace. -/
def pyStrip (s : Str) : Str :=
  ((s.dropWhile Char.isWhitespace).reverse.dropWhile Char.isWhitespace).reverse

/-- Shorthand for embedding Lean string literals as `Str`. -/
def lit (s : String) : Str := s.toList

/-- The apostrophe character (written via its code point). -/
def apos : Char := Char.ofNat 39

/-- A heading entry as built by `CapillaryDocScraper.extract_content`:
`{'level': heading.name, 'text': heading.get_text(strip=True)}`. -/
structure Heading where
  level : Str
  text : Str
  deriving DecidableEq

/-- A scraped page record, the dictionary built by
`CapillaryDocScraper.extract_content` (app.py) and consumed by
`DocBot` (server.py). -/
structure Record where
  url : Str
  title : Str
  content : Str
  headings : List Heading
  code_snippets : List Str
  links : List Str
  deriving DecidableEq

/-! ## Search (server.py, `DocBot.search_docs`) -/

/-- The score `DocBot.search_docs` accumulates for one document
(server.py lines 39-66), translated loop by loop. -/
def score (query : Str) (doc : Record) : Nat :=
  let query_lower := lowerStr query
  let query_terms := splitWS query_lower
  let title := lowerStr doc.title
  let content := lowerStr doc.content
  let sc : Nat := 0
  let sc := query_terms.foldl (fun sc term => if isSub term title then sc + 15 else sc) sc
  let sc := if isSub query_lower title then sc + 20 else sc
  let sc := if isSub query_lower content then sc + 10 else sc
  let sc := query_terms.foldl
    (fun sc term => if 2 < term.length then sc + countOcc term content * 2 else sc) sc
  doc.headings.foldl
    (fun sc h =>
      let heading_text := lowerStr h.text
      let sc := if isSub query_lower heading_text then sc + 8 else sc
      query_terms.foldl (fun sc term => if isSub term heading_text then sc + 3 else sc) sc)
    sc

/-- The `results` list of `search_docs`: one `(doc, score)` entry per document
with positive score, in corpus order (server.py lines 68-72). -/
def searchScored (query : Str) (docs : List Record) : List (Record × Nat) :=
  docs.filterMap (fun d => if 0 < score query d then some (d, score query d) else none)

/-- Stable insertion step for descending sort by score: an element is placed
after every strictly greater element and before every less-or-equal one, which
is the ordering produced by Python's stable `list.sort(key=score, reverse=True)`. -/
def insertDesc (x : Record × Nat) : List (Record × Nat) → List (Record × Nat)
  | [] => [x]
  | y :: ys => if x.2 < y.2 then y :: insertDesc x ys else x :: y :: ys

/-- Stable descending sort by score, modelling
`results.sort(key=lambda x: x['score'], reverse=True)` (server.py line 75):
Python's sort is stable and `reverse=True` keeps equal elements in original order. -/
def sortDesc (l : List (Record × Nat)) : List (Record × Nat) := l.foldr insertDesc []

/-- `DocBot.search_docs` (server.py lines 32-82): score each document, keep
positive scores, sort stably by descending score, return the first
`max_results` documents (the Python default for `max_results` is 3). -/
def search_docs (query : Str) (max_results : Nat) (docs : List Record) : List Record :=
  ((sortDesc (searchScored query docs)).take max_results).map Prod.fst

/-- The additive scoring formula exactly as the specification words it
(spec section 4.5), with "+15 per **distinct** query term": the term list is
deduplicated for the title bonus. -/
def specScore (query : Str) (doc : Record) : Nat :=
  let ql := lowerStr query
  let terms := splitWS ql
  let title := lowerStr doc.title
  let content := lowerStr doc.content
  15 * (terms.dedup.countP (fun t => isSub t title))
    + (if isSub ql title then 20 else 0)
    + (if isSub ql content then 10 else 0)
    + 2 * (terms.map (fun t => if 2 < t.length then countOcc t content else 0)).sum
    + (doc.headings.map (fun h =>
        (if isSub ql (lowerStr h.text) then 8 else 0)
          + 3 * terms.countP (fun t => isSub t (lowerStr h.text)))).sum

/-- The scoring formula as the code actually computes it: "+15 per query
term **with multiplicity**" (the whitespace-split term list is not
deduplicated); otherwise identical to `specScore`. -/
def amendedScore (query : Str) (doc : Record) : Nat :=
  let ql := lowerStr query
  let terms := splitWS ql
  let title := lowerStr doc.title
  let content := lowerStr doc.content
  15 * (terms.countP (fun t => isSub t title))
    + (if isSub ql title then 20 else 0)
    + (if isSub ql content then 10 else 0)
    + 2 * (terms.map (fun t => if 2 < t.length then countOcc t content else 0)).sum
    + (doc.headings.map (fun h =>
        (if isSub ql (lowerStr h.text) then 8 else 0)
          + 3 * terms.countP (fun t => isSub t (lowerStr h.text)))).sum

/-! ## Response generation (server.py, `DocBot.generate_response`) -/

/-- server.py line 87: the no-results apology. -/
def apologyMsg : Str :=
  lit "I couldn" ++ [apos] ++
    lit "t find specific information about that in the documentation. Please try rephrasing your question or ask about a different topic."

/-- server.py line 96: the found-page-but-no-content message. -/
def noContentMsg : Str :=
  lit "I found a relevant page but couldn" ++ [apos] ++
    lit "t extract the content. Please check the source link below."

/-- server.py line 129: the closing pointer-to-source note. -/
def footerMsg : Str :=
  lit "\n\nFor complete details, please refer to the documentation link below."

/-- server.py line 100: the response opening built from the title. -/
def basedOn (title : Str) : Str :=
  lit "Based on " ++ [apos] ++ title ++ [apos] ++ lit ":\n\n"

/-- Python `content.replace('\n', '. ')` (server.py line 104). -/
def replaceNewlines (s : Str) : Str :=
  (s.map (fun c => if c = '\n' then ['.', ' '] else [c])).flatten

/-- server.py lines 104-105: split the content on periods (newlines first
replaced by `. `), strip each piece, keep the stripped pieces longer than 20. -/
def splitSentences (content : Str) : List Str :=
  (((replaceNewlines content).splitOn '.').map pyStrip).filter (fun s => 20 < s.length)

/-- server.py lines 108-114: the sentence-collecting loop, which appends each
sentence containing a query term and breaks once three are collected. -/
def collectRelevant (query_terms : List Str) : List Str → List Str → List Str
  | [], acc => acc
  | sentence :: rest, acc =>
    if query_terms.any (fun term => isSub term (lowerStr sentence)) then
      let acc2 := acc ++ [sentence]
      if 3 ≤ acc2.length then acc2 else collectRelevant query_terms rest acc2
    else collectRelevant query_terms rest acc

/-- `DocBot.generate_response` (server.py lines 84-131), translated branch by
branch.  (`top_doc.get('title', 'Documentation')` is the `title` field here:
records built by `extract_content` always carry the key.) -/
def generate_response (query : Str) (relevant_docs : List Record) : Str :=
  match relevant_docs with
  | [] => apologyMsg
  | top_doc :: _ =>
    let title := top_doc.title
    let content := top_doc.content
    if content = [] then noContentMsg
    else
      let response := basedOn title
      let query_terms := splitWS (lowerStr query)
      let sentences := splitSentences content
      let relevant_sentences := collectRelevant query_terms sentences []
      let response :=
        if relevant_sentences ≠ [] then
          response ++ List.intercalate (lit ". ") relevant_sentences ++ ['.']
        else
          let meaningful_sentences := (sentences.filter (fun s => 30 < s.length)).take 4
          if meaningful_sentences ≠ [] then
            response ++ List.intercalate (lit ". ") meaningful_sentences ++ ['.']
          else
            response ++ content.take 500 ++ lit "..."
      response ++ footerMsg

/-- The fallback chain as the specification words it (spec section 4.6):
up to 3 sentences containing a query term; else up to 4 kept sentences longer
than 30 characters; else the first 500 characters with a truncation marker. -/
def specBody (query : Str) (doc : Record) : Str :=
  let terms := splitWS (lowerStr query)
  let sentences := splitSentences doc.content
  let relevant := (sentences.filter (fun s => terms.any (fun t => isSub t (lowerStr s)))).take 3
  if relevant ≠ [] then List.intercalate (lit ". ") relevant ++ ['.']
  else
    let meaningful := (sentences.filter (fun s => 30 < s.length)).take 4
    if meaningful ≠ [] then List.intercalate (lit ". ") meaningful ++ ['.']
    else doc.content.take 500 ++ lit "..."

/-! ## Crawler (app.py, `CapillaryDocScraper`) -/

/-- The outcome of fetching and parsing one URL: the record that
`extract_content` would build for it, and the href attributes of its anchor
elements in document order. -/
structure PageData where
  record : Record
  hrefs : List Str

/-- Crawler environment: the constructor argument `base_url`, the
`scrape_documentation` argument `max_pages`, the network/parse behaviour
(`requests` + BeautifulSoup + `extract_content`) as an oracle `fetch`
(`none` models any fetch/parse exception), and the Python-stdlib URL
helpers `urljoin` and `urlparse(...).netloc` as abstract functions. -/
structure Config where
  base_url : Str
  max_pages : Nat
  fetch : Str → Option PageData
  urljoin : Str → Str → Str
  netloc : Str → Str

/-- Crawler state: the frontier `urls_to_visit`, `visited_urls`,
`scraped_data`, the `pages_scraped` budget counter, and a ghost log of every
URL for which a fetch was issued (in order). -/
structure CrawlState where
  frontier : List Str
  visited : List Str
  records : List Record
  pages : Nat
  fetched : List Str
  deriving DecidableEq

/-- app.py line 69: `absolute_url.split('#')[0].split('?')[0]` — strip
everything from the first `#`, then from the first `?`. -/
def cleanUrl (s : Str) : Str :=
  (s.takeWhile (fun c => c ≠ '#')).takeWhile (fun c => c ≠ '?')

/-- `CapillaryDocScraper.is_valid_url` (app.py lines 20-24): compare the
network-location of the URL with that of the base URL. -/
def is_valid_url (cfg : Config) (url : Str) : Bool :=
  cfg.netloc url == cfg.netloc cfg.base_url

/-- The accumulating loop of `get_links` (app.py lines 65-72). -/
def getLinksAux (cfg : Config) (current : Str) (visited : List Str) :
    List Str → List Str → List Str
  | [], links => links
  | href :: rest, links =>
    let absolute_url := cfg.urljoin current href
    let clean_url := cleanUrl absolute_url
    if is_valid_url cfg clean_url ∧ clean_url ∉ visited then
      getLinksAux cfg current visited rest (links ++ [clean_url])
    else
      getLinksAux cfg current visited rest links

/-- `CapillaryDocScraper.get_links` (app.py lines 63-72). -/
def get_links (cfg : Config) (hrefs : List Str) (current : Str) (visited : List Str) :
    List Str :=
  getLinksAux cfg current visited hrefs []

/-- `CapillaryDocScraper.scrape_page` (app.py lines 74-97): returns the
updated state and the discovered links (`False` on the already-visited path
and `[]` on the exception path are both falsy to the caller, so both are
modelled as `[]`).  The fetch log records the attempt as soon as the `try`
block issues the request, whether or not it fails. -/
def scrape_page (cfg : Config) (s : CrawlState) (url : Str) : CrawlState × List Str :=
  if url ∈ s.visited then (s, [])
  else
    let s1 : CrawlState := { s with fetched := s.fetched ++ [url] }
    match cfg.fetch url with
    | none => (s1, [])
    | some page =>
      let s2 : CrawlState :=
        if page.record.content ≠ [] then { s1 with records := s1.records ++ [page.record] }
        else s1
      let s3 : CrawlState := { s2 with visited := url :: s2.visited }
      (s3, get_links cfg page.hrefs url s3.visited)

/-- One iteration of the `while` loop of `scrape_documentation`
(app.py lines 104-118): pop the head of the frontier; skip it without
consuming budget if visited; otherwise scrape it, enqueue the returned links
at the tail, and increment `pages_scraped`.  (`time.sleep` has no effect on
the modelled state.) -/
def step (cfg : Config) (s : CrawlState) : CrawlState :=
  match s.frontier with
  | [] => s
  | current_url :: rest =>
    let s0 : CrawlState := { s with frontier := rest }
    if current_url ∈ s0.visited then s0
    else
      let res := scrape_page cfg s0 current_url
      let s2 : CrawlState := { res.1 with frontier := res.1.frontier ++ res.2 }
      { s2 with pages := s2.pages + 1 }

/-- Negation of the `while` guard `urls_to_visit and pages_scraped < max_pages`. -/
def loopDone (cfg : Config) (s : CrawlState) : Bool :=
  s.frontier.isEmpty || decide (cfg.max_pages ≤ s.pages)

/-- The `while` loop of `scrape_documentation` run with explicit fuel:
`crawlFuel cfg n s` performs up to `n` iterations, stopping as soon as the
loop guard fails. -/
def crawlFuel (cfg : Config) : Nat → CrawlState → CrawlState
  | 0, s => s
  | fuel + 1, s => if loopDone cfg s then s else crawlFuel cfg fuel (step cfg s)

/-- app.py lines 101-102: the initial crawl state (`urls_to_visit = [self.base_url]`,
`pages_scraped = 0`, fresh visited set and record list). -/
def initState (cfg : Config) : CrawlState :=
  { frontier := [cfg.base_url], visited := [], records := [], pages := 0, fetched := [] }

/-! ## Persistence (app.py `save_to_json`, server.py `load_docs`) -/

/-- The JSON values produced by `json.dump(self.scraped_data, ...)`: every
field of a record is a string, an array of strings, or an array of
level/text objects, so strings, arrays and objects suffice. -/
inductive Json where
  | jstr (s : Str)
  | jarr (elems : List Json)
  | jobj (fields : List (Str × Json))

/-- The JSON object `json.dump` writes for one heading entry. -/
def headingToJson (h : Heading) : Json :=
  .jobj [(lit "level", .jstr h.level), (lit "text", .jstr h.text)]

/-- The JSON object `json.dump` writes for one record: exactly the keys
`url, title, content, headings, code_snippets, links` (app.py lines 28-35). -/
def recordToJson (r : Record) : Json :=
  .jobj [(lit "url", .jstr r.url),
         (lit "title", .jstr r.title),
         (lit "content", .jstr r.content),
         (lit "headings", .jarr (r.headings.map headingToJson)),
         (lit "code_snippets", .jarr (r.code_snippets.map Json.jstr)),
         (lit "links", .jarr (r.links.map Json.jstr))]

/-- `CapillaryDocScraper.save_to_json` (app.py lines 122-126): the persisted
file is the single JSON array of the record objects, fully replacing any
previous contents. -/
def save_to_json (corpus : List Record) : Json :=
  .jarr (corpus.map recordToJson)

/-- Python dict key lookup on a JSON object (first binding wins). -/
def jlookup : List (Str × Json) → Str → Option Json
  | [], _ => none
  | (k2, v) :: rest, k => if k2 = k then some v else jlookup rest k

/-- Read a JSON string. -/
def asStr : Json → Option Str
  | .jstr s => some s
  | _ => none

/-- All-or-nothing traversal of a list (the shape `json.load` reproduces
arrays with). -/
def optMapM (g : α → Option β) : List α → Option (List β)
  | [] => some []
  | a :: l =>
    match g a, optMapM g l with
    | some b, some bl => some (b :: bl)
    | _, _ => none

/-- Reconstruct one heading entry from its JSON object. -/
def headingFromJson (j : Json) : Option Heading :=
  match j with
  | .jobj fields =>
    match jlookup fields (lit "level"), jlookup fields (lit "text") with
    | some (.jstr l), some (.jstr t) => some ⟨l, t⟩
    | _, _ => none
  | _ => none

/-- Reconstruct one record from its JSON object. -/
def recordFromJson (j : Json) : Option Record :=
  match j with
  | .jobj fields =>
    match jlookup fields (lit "url"), jlookup fields (lit "title"),
          jlookup fields (lit "content"), jlookup fields (lit "headings"),
          jlookup fields (lit "code_snippets"), jlookup fields (lit "links") with
    | some (.jstr u), some (.jstr t), some (.jstr c),
      some (.jarr hs), some (.jarr cs), some (.jarr ls) =>
      match optMapM headingFromJson hs, optMapM asStr cs, optMapM asStr ls with
      | some hs2, some cs2, some ls2 => some ⟨u, t, c, hs2, cs2, ls2⟩
      | _, _, _ => none
    | _, _, _, _, _, _ => none
  | _ => none

/-- `DocBot.load_docs` (server.py lines 23-30) reading back the persisted
array written by `save_to_json`. -/
def load_docs (j : Json) : Option (List Record) :=
  match j with
  | .jarr l => optMapM recordFromJson l
  | _ => none

/-! ## Concrete instances used by witnesses and counterexamples -/

/-- A record whose title is `"ab"` and whose other fields are empty. -/
def recAB : Record := ⟨[], ['a', 'b'], [], [], [], []⟩

/-- The query `"ab ab"` (one term repeated). -/
def qAB : Str := ['a', 'b', ' ', 'a', 'b']

/-- A crawler environment in which every fetch fails. -/
def cfgFail : Config :=
  { base_url := ['b'], max_pages := 10, fetch := fun _ => none,
    urljoin := fun _ h => h, netloc := fun _ => [] }

/-- A page for `"b"` with non-empty content that links to `"u"` twice. -/
def pageU : PageData := ⟨⟨['b'], [], ['x'], [], [], []⟩, [['u'], ['u']]⟩

/-- A crawler environment where the base page `"b"` links to `"u"` twice and
fetching `"u"` always fails. -/
def cfgDup : Config :=
  { base_url := ['b'], max_pages := 10,
    fetch := fun u => if u = ['b'] then some pageU else none,
    urljoin := fun _ h => h, netloc := fun _ => [] }

/-- An unbounded link graph: every page exists, has non-empty content, and
links to one fresh URL (its own URL with `'a'` appended), so the frontier
never empties.  The page budget is 5. -/
def cfgInf : Config :=
  { base_url := ['b'], max_pages := 5,
    fetch := fun u => some ⟨⟨u, [], ['x'], [], [], []⟩, [u ++ ['a']]⟩,
    urljoin := fun _ h => h, netloc := fun _ => [] }

/-- A crawl state whose frontier head `"u"` is already visited. -/
def sVisited : CrawlState :=
  { frontier := [['u']], visited := [['u']], records := [], pages := 0, fetched := [] }

/-- A record with a single long sentence mentioning the term `"qqqqq"`. -/
def recW : Record := ⟨[], ['t'], lit "qqqqq qqqqq qqqqq qqqqq", [], [], []⟩

/-! ## Fold lemmas for the scoring loops -/

/-- A `score += k` loop guarded by a boolean test adds `k` per passing element. -/
theorem foldl_if_const (p : Str → Bool) (k : Nat) (l : List Str) (n : Nat) :
    l.foldl (fun sc t => if p t then sc + k else sc) n = n + k * l.countP p := by
  induction l generalizing n with
  | nil => simp
  | cons a l ih =>
    simp only [List.foldl_cons, List.countP_cons]
    by_cases h : p a
    · simp only [h, if_true, ih]
      rw [Nat.mul_add, Nat.mul_one]
      omega
    · simp [h, ih]

/-- A `score += f t` loop guarded by a decidable test sums the guarded values. -/
theorem foldl_if_fn (p : Str → Prop) [DecidablePred p] (f : Str → Nat) (l : List Str)
    (n : Nat) :
    l.foldl (fun sc t => if p t then sc + f t else sc) n
      = n + (l.map (fun t => if p t then f t else 0)).sum := by
  induction l generalizing n with
  | nil => simp
  | cons a l ih =>
    simp only [List.foldl_cons, List.map_cons, List.sum_cons]
    by_cases h : p a
    · simp only [h, if_true, ih]; omega
    · simp only [h, if_false, ih]; omega

/-- Doubling inside a guarded sum equals doubling the sum. -/
theorem sum_map_if_double (p : Str → Prop) [DecidablePred p] (f : Str → Nat)
    (l : List Str) :
    (l.map (fun t => if p t then f t * 2 else 0)).sum
      = 2 * (l.map (fun t => if p t then f t else 0)).sum := by
  induction l with
  | nil => simp
  | cons a l ih =>
    simp only [List.map_cons, List.sum_cons, ih]
    by_cases h : p a
    · simp only [h, if_true]; omega
    · simp only [h, if_false]; omega

/-- The heading loop of `search_docs` adds, per heading, 8 for a full-query
match plus 3 per matching term. -/
theorem headings_foldl (ql : Str) (terms : List Str) (hs : List Heading) (n : Nat) :
    hs.foldl (fun sc h =>
        let heading_text := lowerStr h.text
        let sc := if isSub ql heading_text then sc + 8 else sc
        terms.foldl (fun sc term => if isSub term heading_text then sc + 3 else sc) sc) n
      = n + (hs.map (fun h =>
          (if isSub ql (lowerStr h.text) then 8 else 0)
            + 3 * terms.countP (fun t => isSub t (lowerStr h.text)))).sum := by
  induction hs generalizing n with
  | nil => simp
  | cons h hs ih =>
    rw [List.foldl_cons, List.map_cons, List.sum_cons, ih]
    have hinner := foldl_if_const (fun t => isSub t (lowerStr h.text)) 3 terms
    by_cases hq : isSub ql (lowerStr h.text) = true
    · simp only [hq, if_true, hinner]; omega
    · simp [hq, hinner]; omega

/-- The score accumulated by the `search_docs` loops, in closed form:
this is the amended formula (terms counted with multiplicity). -/
theorem score_eq_amendedScore (q : Str) (d : Record) : score q d = amendedScore q d := by
  simp only [score, amendedScore]
  rw [foldl_if_const, headings_foldl, foldl_if_fn (fun t => 2 < t.length),
    sum_map_if_double (fun t => 2 < t.length)]
  by_cases h2 : isSub (lowerStr q) (lowerStr d.title) = true <;>
    by_cases h3 : isSub (lowerStr q) (lowerStr d.content) = true <;>
      simp [h2, h3]

/-! ## Lemmas about the stable descending sort -/

theorem mem_insertDesc (x a : Record × Nat) (l : List (Record × Nat)) :
    a ∈ insertDesc x l ↔ a = x ∨ a ∈ l := by
  induction l with
  | nil => simp [insertDesc]
  | cons y ys ih =>
    simp only [insertDesc]
    by_cases h : x.2 < y.2
    · rw [if_pos h]
      simp only [List.mem_cons, ih]
      tauto
    · rw [if_neg h]
      simp only [List.mem_cons]

theorem mem_sortDesc (a : Record × Nat) (l : List (Record × Nat)) :
    a ∈ sortDesc l ↔ a ∈ l := by
  induction l with
  | nil => simp [sortDesc]
  | cons x xs ih =>
    show a ∈ insertDesc x (sortDesc xs) ↔ _
    rw [mem_insertDesc]
    simp only [List.mem_cons, ih]

theorem length_insertDesc (x : Record × Nat) (l : List (Record × Nat)) :
    (insertDesc x l).length = l.length + 1 := by
  induction l with
  | nil => rfl
  | cons y ys ih =>
    simp only [insertDesc]
    by_cases h : x.2 < y.2
    · rw [if_pos h]; simp [ih]
    · rw [if_neg h]; simp

theorem length_sortDesc (l : List (Record × Nat)) : (sortDesc l).length = l.length := by
  induction l with
  | nil => rfl
  | cons x xs ih =>
    show (insertDesc x (sortDesc xs)).length = _
    rw [length_insertDesc, ih, List.length_cons]

theorem pairwise_insertDesc (x : Record × Nat) (l : List (Record × Nat))
    (h : l.Pairwise (fun a b => b.2 ≤ a.2)) :
    (insertDesc x l).Pairwise (fun a b => b.2 ≤ a.2) := by
  induction l with
  | nil => simp [insertDesc]
  | cons y ys ih =>
    rw [List.pairwise_cons] at h
    simp only [insertDesc]
    by_cases hlt : x.2 < y.2
    · rw [if_pos hlt, List.pairwise_cons]
      refine ⟨fun z hz => ?_, ih h.2⟩
      rcases (mem_insertDesc x z ys).mp hz with rfl | hz
      · omega
      · exact h.1 z hz
    · rw [if_neg hlt, List.pairwise_cons]
      refine ⟨fun z hz => ?_, List.pairwise_cons.mpr h⟩
      rcases List.mem_cons.mp hz with rfl | hz
      · omega
      · have := h.1 z hz; omega

theorem pairwise_sortDesc (l : List (Record × Nat)) :
    (sortDesc l).Pairwise (fun a b => b.2 ≤ a.2) := by
  induction l with
  | nil => simp [sortDesc]
  | cons x xs ih => exact pairwise_insertDesc x (sortDesc xs) ih

/-- Stability of the insertion step: inserting never reorders the elements of
any fixed score class. -/
theorem filter_insertDesc (x : Record × Nat) (l : List (Record × Nat)) (n : Nat) :
    (insertDesc x l).filter (fun p => p.2 == n)
      = if x.2 == n then x :: l.filter (fun p => p.2 == n)
        else l.filter (fun p => p.2 == n) := by
  induction l with
  | nil => by_cases hx : x.2 = n <;> simp [insertDesc, hx]
  | cons y ys ih =>
    simp only [insertDesc]
    by_cases hlt : x.2 < y.2
    · rw [if_pos hlt]
      by_cases hx : x.2 = n
      · have hy : ¬(y.2 = n) := by omega
        simp [List.filter_cons, hx, hy, ih]
      · simp [List.filter_cons, hx, ih]
    · rw [if_neg hlt]
      by_cases hx : x.2 = n
      · simp [List.filter_cons, hx]
      · simp [List.filter_cons, hx]

/-- Stability of the sort: each score class keeps its original order. -/
theorem sortDesc_filter (l : List (Record × Nat)) (n : Nat) :
    (sortDesc l).filter (fun p => p.2 == n) = l.filter (fun p => p.2 == n) := by
  induction l with
  | nil => rfl
  | cons x xs ih =>
    show (insertDesc x (sortDesc xs)).filter _ = _
    rw [filter_insertDesc]
    by_cases hx : x.2 = n
    · simp [List.filter_cons, hx, ih]
    · simp [List.filter_cons, hx, ih]

/-! ## Claim C1 -/

/-- **C1, counterexample**: for the query `"ab ab"` and a record titled
`"ab"`, `search_docs` scores 30 (the repeated term earns the +15 title bonus
twice), while the spec formula "+15 per distinct query term" yields 15: the
score computed by the code does not equal the spec's formula. -/
theorem claim_C1_cex :
    score qAB recAB = 30 ∧ specScore qAB recAB = 15 ∧
      score qAB recAB ≠ specScore qAB recAB :=
  ⟨by decide, by decide, by decide⟩

/-- **C1, amended**: for every query and record the score computed by
`search_docs` equals the additive formula with "+15 per query term counted
with multiplicity" (the whitespace-split term list is not deduplicated);
the other clauses are as the claim states them; and every record appearing
in a search result has strictly positive score (records scoring 0 appear in
no search result). -/
theorem claim_C1_amended :
    (∀ (q : Str) (d : Record), score q d = amendedScore q d) ∧
    (∀ (q : Str) (k : Nat) (docs : List Record) (d : Record),
      d ∈ search_docs q k docs → 0 < score q d) := by
  refine ⟨score_eq_amendedScore, ?_⟩
  intro q k docs d hd
  unfold search_docs at hd
  obtain ⟨p, hp, hpd⟩ := List.mem_map.mp hd
  have hp2 : p ∈ sortDesc (searchScored q docs) := List.mem_of_mem_take hp
  rw [mem_sortDesc] at hp2
  unfold searchScored at hp2
  obtain ⟨d0, _, hsome⟩ := List.mem_filterMap.mp hp2
  by_cases h : 0 < score q d0
  · rw [if_pos h] at hsome
    obtain rfl : p = (d0, score q d0) := (Option.some.inj hsome).symm
    obtain rfl : d0 = d := hpd
    exact h
  · rw [if_neg h] at hsome
    cases hsome

/-- **C1, witness**: the record titled `"ab"` is returned for the query
`"ab ab"`, and the amended theorem certifies its positive score. -/
theorem claim_C1_witness :
    recAB ∈ search_docs qAB 3 [recAB] ∧ 0 < score qAB recAB :=
  ⟨by decide, claim_C1_amended.2 qAB 3 [recAB] recAB (by decide)⟩

/-! ## Claim C2 -/

/-- **C2** (confirmed): `search_docs` returns at most `max_results` records;
the returned records are the first `max_results` of the stable descending
sort of the positively scored records; the ranking is ordered by score from
highest to lowest; and, for every score value, the returned entries of that
score form a sublist of the corpus-ordered scored list (ties keep corpus
order). -/
theorem claim_C2 (q : Str) (k : Nat) (docs : List Record) :
    (search_docs q k docs).length ≤ k ∧
    search_docs q k docs = ((sortDesc (searchScored q docs)).take k).map Prod.fst ∧
    ((sortDesc (searchScored q docs)).take k).Pairwise (fun a b => b.2 ≤ a.2) ∧
    ∀ n : Nat, List.Sublist
        (((sortDesc (searchScored q docs)).take k).filter (fun p => p.2 == n))
        (searchScored q docs) := by
  refine ⟨?_, rfl, ?_, ?_⟩
  · unfold search_docs
    rw [List.length_map, List.length_take]
    exact Nat.min_le_left _ _
  · exact (pairwise_sortDesc _).sublist (List.take_sublist _ _)
  · intro n
    have h1 : List.Sublist
        (((sortDesc (searchScored q docs)).take k).filter (fun p => p.2 == n))
        ((sortDesc (searchScored q docs)).filter (fun p => p.2 == n)) :=
      (List.take_sublist _ _).filter _
    rw [sortDesc_filter] at h1
    exact h1.trans (List.filter_sublist _)

/-! ## Claim C10 -/

/-- The empty string is a substring of every string (Python semantics). -/
theorem isSub_nil (s : Str) : isSub [] s = true := by
  cases s <;> simp [isSub, List.isPrefixOf]

theorem foldl_add_const_headings (hs : List Heading) (n : Nat) :
    hs.foldl (fun sc (_ : Heading) => sc + 8) n = n + 8 * hs.length := by
  induction hs generalizing n with
  | nil => simp
  | cons h hs ih =>
    rw [List.foldl_cons, ih, List.length_cons]
    omega

/-- The score of the empty query for any record: the +20 and +10 full-query
bonuses always fire, plus +8 per heading; there are no terms. -/
theorem score_nil_query (d : Record) : score [] d = 30 + 8 * d.headings.length := by
  simp only [score, lowerStr, List.map_nil]
  show List.foldl _ _ d.headings = _
  simp only [splitWS, splitWSAux, List.isEmpty_nil, if_true, List.foldl_nil, isSub_nil,
    if_true]
  rw [foldl_add_const_headings]

/-- With the empty query, no record is filtered out: the scored list is the
whole corpus, in order. -/
theorem searchScored_nil_query (docs : List Record) :
    searchScored [] docs = docs.map (fun d => (d, score [] d)) := by
  induction docs with
  | nil => rfl
  | cons d ds ih =>
    have h : 0 < score [] d := by rw [score_nil_query]; omega
    simp only [searchScored] at ih ⊢
    rw [List.filterMap_cons, if_pos h, List.map_cons, ih]

/-- **C10** (confirmed): for the empty query every record scores at least 30
(+20 title, +10 content, +8 per heading), no record is excluded — the result
has exactly `min max_results (corpus length)` records — and equal-score
records are returned in corpus order. -/
theorem claim_C10 (docs : List Record) (k : Nat) :
    (∀ d ∈ docs, 30 ≤ score [] d) ∧
    (search_docs [] k docs).length = min k docs.length ∧
    ∀ n : Nat, List.Sublist
        (((sortDesc (searchScored [] docs)).take k).filter (fun p => p.2 == n))
        (searchScored [] docs) := by
  refine ⟨?_, ?_, ?_⟩
  · intro d _
    rw [score_nil_query]; omega
  · unfold search_docs
    rw [List.length_map, List.length_take, length_sortDesc, searchScored_nil_query,
      List.length_map]
  · intro n
    have h1 : List.Sublist
        (((sortDesc (searchScored [] docs)).take k).filter (fun p => p.2 == n))
        ((sortDesc (searchScored [] docs)).filter (fun p => p.2 == n)) :=
      (List.take_sublist _ _).filter _
    rw [sortDesc_filter] at h1
    exact h1.trans (List.filter_sublist _)

/-- **C10, witness**: applied to the one-record corpus `[recAB]`. -/
theorem claim_C10_witness :
    30 ≤ score [] recAB ∧ (search_docs [] 1 [recAB]).length = min 1 1 :=
  ⟨(claim_C10 [recAB] 1).1 recAB (by decide), (claim_C10 [recAB] 1).2.1⟩

/-! ## Claim C8 -/

/-- The sentence-collecting loop with its 3-element break equals
"filter then take 3". -/
theorem collectRelevant_eq (terms : List Str) (l : List Str) (acc : List Str)
    (h : acc.length < 3) :
    collectRelevant terms l acc
      = acc ++ (l.filter (fun s => terms.any (fun t => isSub t (lowerStr s)))).take
          (3 - acc.length) := by
  induction l generalizing acc with
  | nil => simp [collectRelevant]
  | cons s rest ih =>
    simp only [collectRelevant, List.filter_cons]
    by_cases hp : terms.any (fun t => isSub t (lowerStr s)) = true
    · rw [if_pos hp, if_pos hp]
      by_cases h3 : 3 ≤ (acc ++ [s]).length
      · rw [if_pos h3]
        have hlen : acc.length = 2 := by
          rw [List.length_append, List.length_singleton] at h3
          omega
        rw [hlen]
        simp [List.take_succ_cons]
      · rw [if_neg h3]
        have hlen : (acc ++ [s]).length < 3 := by omega
        rw [ih _ hlen]
        have harith : 3 - acc.length = (3 - (acc ++ [s]).length) + 1 := by
          rw [List.length_append, List.length_singleton]
          rw [List.length_append, List.length_singleton] at h3
          omega
        rw [harith, List.take_succ_cons, List.append_assoc, List.singleton_append]
    · rw [if_neg hp, if_neg hp]
      exact ih acc h

/-- **C8** (confirmed): for a top-ranked record with non-empty content,
`generate_response` is the `Based on` opening, then exactly the spec's
fallback chain over the kept sentences, then the pointer-to-source note;
and when no kept sentence contains a query term but some kept sentence is
longer than 30 characters, the output is the term-agnostic fallback and is
not the no-results apology. -/
theorem claim_C8 (query : Str) (d : Record) (rest : List Record)
    (hc : d.content ≠ []) :
    (generate_response query (d :: rest)
        = basedOn d.title ++ specBody query d ++ footerMsg) ∧
    ((splitSentences d.content).filter
        (fun s => (splitWS (lowerStr query)).any (fun t => isSub t (lowerStr s))) = [] →
      (splitSentences d.content).filter (fun s => 30 < s.length) ≠ [] →
      generate_response query (d :: rest)
          = basedOn d.title
            ++ (List.intercalate (lit ". ")
                (((splitSentences d.content).filter (fun s => 30 < s.length)).take 4)
              ++ ['.'])
            ++ footerMsg
        ∧ generate_response query (d :: rest) ≠ apologyMsg) := by
  have hcoll := collectRelevant_eq (splitWS (lowerStr query)) (splitSentences d.content)
    [] (by simp)
  simp only [List.nil_append, List.length_nil, Nat.sub_zero] at hcoll
  have hmain : generate_response query (d :: rest)
      = basedOn d.title ++ specBody query d ++ footerMsg := by
    simp only [generate_response, specBody]
    rw [if_neg hc, hcoll]
    by_cases h1 : ((splitSentences d.content).filter
        (fun s => (splitWS (lowerStr query)).any (fun t => isSub t (lowerStr s)))).take 3
        ≠ []
    · rw [if_pos h1, if_pos h1]
      simp only [List.append_assoc]
    · rw [if_neg h1, if_neg h1]
      by_cases h2 : ((splitSentences d.content).filter (fun s => 30 < s.length)).take 4
          ≠ []
      · rw [if_pos h2, if_pos h2]
        simp only [List.append_assoc]
      · rw [if_neg h2, if_neg h2]
        simp only [List.append_assoc]
  refine ⟨hmain, fun hno hlong => ?_⟩
  have hbody : specBody query d
      = List.intercalate (lit ". ")
          (((splitSentences d.content).filter (fun s => 30 < s.length)).take 4) ++ ['.'] := by
    simp only [specBody]
    rw [hno]
    simp only [List.take_nil, ne_eq, not_true_eq_false, if_false]
    have hm : ((splitSentences d.content).filter (fun s => 30 < s.length)).take 4 ≠ [] := by
      intro habs
      rcases List.take_eq_nil_iff.mp habs with h4 | h4
      · cases h4
      · exact hlong h4
    rw [if_pos hm]
  refine ⟨by rw [hmain, hbody], ?_⟩
  rw [hmain]
  intro heq
  have hB : (basedOn d.title ++ specBody query d ++ footerMsg).head? = some 'B' := rfl
  rw [heq] at hB
  have hI : apologyMsg.head? = some 'I' := rfl
  rw [hI] at hB
  simp at hB

/-- **C8, witness**: applied to a record with one long, term-containing
sentence and the query `"q"`. -/
theorem claim_C8_witness :
    recW.content ≠ [] ∧
      generate_response ['q'] [recW]
        = basedOn recW.title ++ specBody ['q'] recW ++ footerMsg :=
  ⟨by decide, (claim_C8 ['q'] recW [] (by decide)).1⟩

/-! ## Crawler step characterization -/

/-- An empty frontier: the loop body does nothing. -/
theorem step_nil (cfg : Config) (s : CrawlState) (hf : s.frontier = []) :
    step cfg s = s := by
  unfold step
  split
  · rfl
  · rename_i url rest heq
    rw [hf] at heq
    simp at heq

/-- Dequeuing an already-visited URL only pops the frontier: no fetch, no
record, no links, no budget (app.py lines 104-108). -/
theorem step_visited (cfg : Config) (s : CrawlState) (url : Str) (rest : List Str)
    (hf : s.frontier = url :: rest) (hv : url ∈ s.visited) :
    step cfg s = { s with frontier := rest } := by
  unfold step
  split
  · rename_i heq
    rw [hf] at heq
    simp at heq
  · rename_i url2 rest2 heq
    rw [hf] at heq
    injection heq with h1 h2
    subst h1; subst h2
    have hv2 : url ∈ ({ s with frontier := rest } : CrawlState).visited := hv
    rw [if_pos hv2]

/-- A failed fetch consumes the dequeued URL and one budget unit but leaves
the visited set and record list unchanged and enqueues nothing
(app.py lines 95-97 with lines 110-114). -/
theorem step_fetch_fail (cfg : Config) (s : CrawlState) (url : Str) (rest : List Str)
    (hf : s.frontier = url :: rest) (hv : url ∉ s.visited) (he : cfg.fetch url = none) :
    step cfg s = { s with
      frontier := rest,
      pages := s.pages + 1,
      fetched := s.fetched ++ [url] } := by
  unfold step
  split
  · rename_i heq
    rw [hf] at heq
    simp at heq
  · rename_i url2 rest2 heq
    rw [hf] at heq
    injection heq with h1 h2
    subst h1; subst h2
    have hv2 : url ∉ ({ s with frontier := rest } : CrawlState).visited := hv
    rw [if_neg hv2]
    simp only [scrape_page, if_neg hv2, he]
    simp

/-- A successful fetch marks the URL visited, appends the record when its
content is non-empty, enqueues the extracted links, and consumes one budget
unit (app.py lines 79-93 with lines 110-114). -/
theorem step_fetch_succ (cfg : Config) (s : CrawlState) (url : Str) (rest : List Str)
    (page : PageData) (hf : s.frontier = url :: rest) (hv : url ∉ s.visited)
    (he : cfg.fetch url = some page) :
    step cfg s = { s with
      frontier := rest ++ get_links cfg page.hrefs url (url :: s.visited),
      visited := url :: s.visited,
      records := if page.record.content ≠ [] then s.records ++ [page.record] else s.records,
      pages := s.pages + 1,
      fetched := s.fetched ++ [url] } := by
  unfold step
  split
  · rename_i heq
    rw [hf] at heq
    simp at heq
  · rename_i url2 rest2 heq
    rw [hf] at heq
    injection heq with h1 h2
    subst h1; subst h2
    have hv2 : url ∉ ({ s with frontier := rest } : CrawlState).visited := hv
    rw [if_neg hv2]
    simp only [scrape_page, if_neg hv2, he]
    by_cases hcon : page.record.content ≠ []
    · simp [hcon]
    · simp [hcon]

/-! ## Claim C3 -/

/-- **C3** (confirmed): a fetch/parse failure on an unvisited dequeued URL is
absorbed — the URL is not marked visited, no links are enqueued, the record
list is unchanged, the budget counter is still incremented, and the loop
state remains well-defined for the next iteration. -/
theorem claim_C3 (cfg : Config) (s : CrawlState) (url : Str) (rest : List Str)
    (hf : s.frontier = url :: rest) (hv : url ∉ s.visited) (he : cfg.fetch url = none) :
    step cfg s = { s with
      frontier := rest,
      pages := s.pages + 1,
      fetched := s.fetched ++ [url] } :=
  step_fetch_fail cfg s url rest hf hv he

/-- **C3, witness**: a crawl whose very first fetch fails. -/
theorem claim_C3_witness :
    (initState cfgFail).frontier = ['b'] :: [] ∧
      (['b'] : Str) ∉ (initState cfgFail).visited ∧ cfgFail.fetch ['b'] = none ∧
      step cfgFail (initState cfgFail)
        = { initState cfgFail with
            frontier := [],
            pages := (initState cfgFail).pages + 1,
            fetched := (initState cfgFail).fetched ++ [['b']] } :=
  ⟨rfl, by decide, rfl, claim_C3 cfgFail (initState cfgFail) ['b'] [] rfl (by decide) rfl⟩

/-! ## Claim C4 -/

/-- The step never shrinks the visited set. -/
theorem step_visited_mono (cfg : Config) (s : CrawlState) :
    s.visited ⊆ (step cfg s).visited := by
  rcases hfr : s.frontier with _ | ⟨url, rest⟩
  · rw [step_nil cfg s hfr]
    exact fun x hx => hx
  · by_cases hv : url ∈ s.visited
    · rw [step_visited cfg s url rest hfr hv]
      exact fun x hx => hx
    · rcases hfe : cfg.fetch url with _ | page
      · rw [step_fetch_fail cfg s url rest hfr hv hfe]
        exact fun x hx => hx
      · rw [step_fetch_succ cfg s url rest page hfr hv hfe]
        exact fun x hx => List.mem_cons_of_mem _ hx

/-- A URL already in the visited set is not fetched by the step. -/
theorem step_fetched_count (cfg : Config) (s : CrawlState) (u : Str)
    (hu : u ∈ s.visited) :
    (step cfg s).fetched.count u = s.fetched.count u := by
  rcases hfr : s.frontier with _ | ⟨url, rest⟩
  · rw [step_nil cfg s hfr]
  · by_cases hv : url ∈ s.visited
    · rw [step_visited cfg s url rest hfr hv]
    · have hne : url ≠ u := fun h => hv (h ▸ hu)
      rcases hfe : cfg.fetch url with _ | page
      · rw [step_fetch_fail cfg s url rest hfr hv hfe]
        show (s.fetched ++ [url]).count u = s.fetched.count u
        rw [List.count_append]
        simp [List.count_cons, hne]
      · rw [step_fetch_succ cfg s url rest page hfr hv hfe]
        show (s.fetched ++ [url]).count u = s.fetched.count u
        rw [List.count_append]
        simp [List.count_cons, hne]

/-- A URL already visited is never fetched again for the rest of the crawl. -/
theorem crawlFuel_fetched_count (cfg : Config) (fuel : Nat) (s : CrawlState) (u : Str)
    (hu : u ∈ s.visited) :
    (crawlFuel cfg fuel s).fetched.count u = s.fetched.count u := by
  induction fuel generalizing s with
  | zero => rfl
  | succ fuel ih =>
    simp only [crawlFuel]
    by_cases hd : loopDone cfg s = true
    · rw [if_pos hd]
    · rw [if_neg hd, ih (step cfg s) (step_visited_mono cfg s hu),
        step_fetched_count cfg s u hu]

/-- **C4, counterexample**: in `cfgDup` the base page links to `"u"` twice and
fetching `"u"` fails; the failed URL is not marked visited, so the duplicate
frontier entry triggers a second fetch of `"u"` within one crawl. -/
theorem claim_C4_cex :
    (crawlFuel cfgDup 4 (initState cfgDup)).fetched.count ['u'] = 2 := by decide

/-- **C4, amended**: dequeuing an already-visited URL pops the frontier and
does nothing else (no fetch, no record, no links, no budget); the visited set
only grows; and a URL in the visited set is never fetched again — per step
and over any remaining crawl.  (A URL whose fetch *failed* is not in the
visited set and can be fetched again from a duplicate frontier entry, so
"no URL is ever fetched twice" does not hold unconditionally.) -/
theorem claim_C4_amended :
    (∀ (cfg : Config) (s : CrawlState) (url : Str) (rest : List Str),
      s.frontier = url :: rest → url ∈ s.visited →
        step cfg s = { s with frontier := rest }) ∧
    (∀ (cfg : Config) (s : CrawlState), s.visited ⊆ (step cfg s).visited) ∧
    (∀ (cfg : Config) (s : CrawlState) (u : Str), u ∈ s.visited →
      (step cfg s).fetched.count u = s.fetched.count u) ∧
    (∀ (cfg : Config) (fuel : Nat) (s : CrawlState) (u : Str), u ∈ s.visited →
      (crawlFuel cfg fuel s).fetched.count u = s.fetched.count u) :=
  ⟨step_visited, step_visited_mono, step_fetched_count, crawlFuel_fetched_count⟩

/-- **C4, witness**: the amended theorem applied to a state whose frontier
head is already visited. -/
theorem claim_C4_witness :
    (['u'] : Str) ∈ sVisited.visited ∧
      step cfgDup sVisited = { sVisited with frontier := [] } :=
  ⟨by decide, claim_C4_amended.1 cfgDup sVisited ['u'] [] rfl (by decide)⟩

/-! ## Claim C5 -/

/-- Processing an unvisited frontier head always increments the budget
counter, whether the fetch fails or succeeds. -/
theorem step_pages_incr (cfg : Config) (s : CrawlState) (url : Str) (rest : List Str)
    (hf : s.frontier = url :: rest) (hv : url ∉ s.visited) :
    (step cfg s).pages = s.pages + 1 := by
  rcases hfe : cfg.fetch url with _ | page
  · rw [step_fetch_fail cfg s url rest hf hv hfe]
  · rw [step_fetch_succ cfg s url rest page hf hv hfe]

/-- Termination of the crawl loop: by lexicographic induction on the
remaining budget and the frontier length, some finite number of iterations
reaches a state where the loop guard fails. -/
theorem crawl_terminates (cfg : Config) (k : Nat) :
    ∀ (m : Nat) (s : CrawlState), cfg.max_pages - s.pages ≤ k → s.frontier.length ≤ m →
      ∃ n, loopDone cfg (crawlFuel cfg n s) = true := by
  induction k with
  | zero =>
    intro m s hk _
    refine ⟨0, ?_⟩
    show loopDone cfg s = true
    have hle : cfg.max_pages ≤ s.pages := by omega
    simp [loopDone, hle]
  | succ k ihk =>
    intro m
    induction m with
    | zero =>
      intro s hk hm
      refine ⟨0, ?_⟩
      show loopDone cfg s = true
      have hfr : s.frontier = [] := List.length_eq_zero.mp (Nat.le_zero.mp hm)
      simp [loopDone, hfr]
    | succ m ihm =>
      intro s hk hm
      by_cases hd : loopDone cfg s = true
      · exact ⟨0, hd⟩
      · rcases hfr : s.frontier with _ | ⟨url, rest⟩
        · exact absurd (by simp [loopDone, hfr]) hd
        · have hrest : rest.length ≤ m := by
            have := congrArg List.length hfr
            simp only [List.length_cons] at this
            omega
          by_cases hv : url ∈ s.visited
          · have hstep := step_visited cfg s url rest hfr hv
            have hpg : cfg.max_pages - (step cfg s).pages ≤ k + 1 := by
              rw [hstep]; exact hk
            have hlen : (step cfg s).frontier.length ≤ m := by
              rw [hstep]; exact hrest
            obtain ⟨n, hn⟩ := ihm (step cfg s) hpg hlen
            refine ⟨n + 1, ?_⟩
            simp only [crawlFuel]
            rw [if_neg hd]
            exact hn
          · have hpp := step_pages_incr cfg s url rest hfr hv
            have hlt : s.pages < cfg.max_pages := by
              by_contra habs
              have hle : cfg.max_pages ≤ s.pages := by omega
              exact hd (by simp [loopDone, hle])
            have hpg : cfg.max_pages - (step cfg s).pages ≤ k := by
              rw [hpp]; omega
            obtain ⟨n, hn⟩ := ihk ((step cfg s).frontier.length) (step cfg s) hpg
              (le_refl _)
            refine ⟨n + 1, ?_⟩
            simp only [crawlFuel]
            rw [if_neg hd]
            exact hn

/-- **C5** (confirmed): the crawl loop terminates for every environment and
every start state (each page yields a finite link list by construction); and
in the unbounded link graph `cfgInf` with `max_pages = 5` the budget counter
is incremented exactly 5 times, the frontier is still non-empty, and the
loop has stopped on the budget alone. -/
theorem claim_C5 :
    (∀ (cfg : Config) (s : CrawlState), ∃ n, loopDone cfg (crawlFuel cfg n s) = true) ∧
    (crawlFuel cfgInf 6 (initState cfgInf)).pages = 5 ∧
    (crawlFuel cfgInf 6 (initState cfgInf)).frontier ≠ [] ∧
    loopDone cfgInf (crawlFuel cfgInf 6 (initState cfgInf)) = true := by
  refine ⟨?_, by decide, by decide, by decide⟩
  intro cfg s
  exact crawl_terminates cfg (cfg.max_pages - s.pages) s.frontier.length s (le_refl _)
    (le_refl _)

/-! ## Claim C7 -/

/-- Each step either leaves the record list unchanged or appends one record
with non-empty content. -/
theorem step_records_cases (cfg : Config) (s : CrawlState) :
    (step cfg s).records = s.records ∨
      ∃ page : PageData, page.record.content ≠ [] ∧
        (step cfg s).records = s.records ++ [page.record] := by
  rcases hfr : s.frontier with _ | ⟨url, rest⟩
  · left; rw [step_nil cfg s hfr]
  · by_cases hv : url ∈ s.visited
    · left; rw [step_visited cfg s url rest hfr hv]
    · rcases hfe : cfg.fetch url with _ | page
      · left; rw [step_fetch_fail cfg s url rest hfr hv hfe]
      · rw [step_fetch_succ cfg s url rest page hfr hv hfe]
        by_cases hcon : page.record.content ≠ []
        · right
          refine ⟨page, hcon, ?_⟩
          simp [hcon]
        · left
          simp [hcon]

/-- One crawl iteration preserves the all-records-non-empty invariant. -/
theorem step_preserves_nonempty (cfg : Config) (s : CrawlState)
    (h : ∀ r ∈ s.records, r.content ≠ []) :
    ∀ r ∈ (step cfg s).records, r.content ≠ [] := by
  rcases step_records_cases cfg s with heq | ⟨page, hp, heq⟩ <;> rw [heq]
  · exact h
  · intro r hr
    rcases List.mem_append.mp hr with hr | hr
    · exact h r hr
    · rw [List.mem_singleton.mp hr]; exact hp

/-- The invariant propagated through any number of crawl iterations. -/
theorem crawlFuel_nonempty (cfg : Config) (fuel : Nat) (s : CrawlState)
    (h : ∀ r ∈ s.records, r.content ≠ []) :
    ∀ r ∈ (crawlFuel cfg fuel s).records, r.content ≠ [] := by
  induction fuel generalizing s with
  | zero => exact h
  | succ fuel ih =>
    simp only [crawlFuel]
    by_cases hd : loopDone cfg s = true
    · rw [if_pos hd]; exact h
    · rw [if_neg hd]
      exact ih _ (step_preserves_nonempty cfg s h)

/-- **C7** (confirmed): empty-content pages are never appended, the
invariant is preserved by every iteration, and every record produced by a
crawl from the initial state has non-empty content. -/
theorem claim_C7 :
    (∀ (cfg : Config) (s : CrawlState), (∀ r ∈ s.records, r.content ≠ []) →
      ∀ r ∈ (step cfg s).records, r.content ≠ []) ∧
    (∀ (cfg : Config) (fuel : Nat),
      ∀ r ∈ (crawlFuel cfg fuel (initState cfg)).records, r.content ≠ []) :=
  ⟨step_preserves_nonempty,
    fun cfg fuel => crawlFuel_nonempty cfg fuel (initState cfg)
      (fun r hr => absurd hr (List.not_mem_nil r))⟩

/-- **C7, witness**: the step invariant applied to a concrete state with an
empty record list. -/
theorem claim_C7_witness :
    (∀ r ∈ sVisited.records, r.content ≠ []) ∧
      ∀ r ∈ (step cfgDup sVisited).records, r.content ≠ [] :=
  ⟨fun r hr => absurd hr (List.not_mem_nil r),
    claim_C7.1 cfgDup sVisited (fun r hr => absurd hr (List.not_mem_nil r))⟩

/-! ## Claim C6 -/

/-- The accumulating link loop equals resolve-normalize-filter in document
order. -/
theorem getLinksAux_eq (cfg : Config) (current : Str) (visited : List Str)
    (hrefs : List Str) (acc : List Str) :
    getLinksAux cfg current visited hrefs acc
      = acc ++ (hrefs.map (fun h => cleanUrl (cfg.urljoin current h))).filter
          (fun u => is_valid_url cfg u && decide (u ∉ visited)) := by
  induction hrefs generalizing acc with
  | nil => simp [getLinksAux]
  | cons href rest ih =>
    simp only [getLinksAux, List.map_cons, List.filter_cons]
    by_cases hb : (is_valid_url cfg (cleanUrl (cfg.urljoin current href))
        && decide (cleanUrl (cfg.urljoin current href) ∉ visited)) = true
    · have hprop : is_valid_url cfg (cleanUrl (cfg.urljoin current href)) = true
          ∧ cleanUrl (cfg.urljoin current href) ∉ visited := by
        simpa [Bool.and_eq_true, decide_eq_true_eq] using hb
      rw [if_pos hprop, ih, hb]
      simp
    · have hprop : ¬(is_valid_url cfg (cleanUrl (cfg.urljoin current href)) = true
          ∧ cleanUrl (cfg.urljoin current href) ∉ visited) := by
        intro hand
        exact hb (by simp [hand.1, hand.2])
      rw [if_neg hprop, ih]
      have hbf : (is_valid_url cfg (cleanUrl (cfg.urljoin current href))
          && decide (cleanUrl (cfg.urljoin current href) ∉ visited)) = false :=
        Bool.eq_false_iff.mpr hb
      rw [hbf]
      simp

/-- **C6** (confirmed): `get_links` returns, in document order, each href
resolved against the current URL, normalized by stripping from the first
`#` then from the first `?`, kept only when its netloc equals the base
URL's and it is not in the visited set; and the normalization example
`"https://docs.x.com/a?x=1#frag" -> "https://docs.x.com/a"` holds. -/
theorem claim_C6 (cfg : Config) (hrefs : List Str) (current : Str)
    (visited : List Str) :
    get_links cfg hrefs current visited
      = (hrefs.map (fun h => cleanUrl (cfg.urljoin current h))).filter
          (fun u => is_valid_url cfg u && decide (u ∉ visited)) ∧
    cleanUrl (lit "https://docs.x.com/a?x=1#frag") = lit "https://docs.x.com/a" := by
  refine ⟨?_, by decide⟩
  unfold get_links
  rw [getLinksAux_eq]
  simp

/-! ## Claim C9 -/

/-- All-or-nothing traversal inverts a map whose images decode pointwise. -/
theorem optMapM_map (g : β → Option α) (f : α → β) (l : List α)
    (h : ∀ a ∈ l, g (f a) = some a) :
    optMapM g (l.map f) = some l := by
  induction l with
  | nil => rfl
  | cons a l ih =>
    simp only [List.map_cons, optMapM]
    rw [h a (List.mem_cons_self a l), ih (fun b hb => h b (List.mem_cons_of_mem a hb))]

/-- One heading entry survives the JSON round trip. -/
theorem heading_roundtrip (h : Heading) : headingFromJson (headingToJson h) = some h := rfl

/-- One record survives the JSON round trip. -/
theorem record_roundtrip (r : Record) : recordFromJson (recordToJson r) = some r := by
  obtain ⟨u, t, c, hs, cs, ls⟩ := r
  have h1 : optMapM headingFromJson (hs.map headingToJson) = some hs :=
    optMapM_map _ _ _ (fun a _ => heading_roundtrip a)
  have h2 : optMapM asStr (cs.map Json.jstr) = some cs :=
    optMapM_map _ _ _ (fun a _ => rfl)
  have h3 : optMapM asStr (ls.map Json.jstr) = some ls :=
    optMapM_map _ _ _ (fun a _ => rfl)
  show (match optMapM headingFromJson (hs.map headingToJson),
        optMapM asStr (cs.map Json.jstr), optMapM asStr (ls.map Json.jstr) with
    | some hs2, some cs2, some ls2 =>
        some (⟨u, t, c, hs2, cs2, ls2⟩ : Record)
    | _, _, _ => none) = some ⟨u, t, c, hs, cs, ls⟩
  rw [h1, h2, h3]

/-- **C9** (confirmed): saving any corpus with `save_to_json` and reloading
it with `load_docs` reproduces every record, with identical field values, in
the same order. -/
theorem claim_C9 (corpus : List Record) :
    load_docs (save_to_json corpus) = some corpus :=
  optMapM_map recordFromJson recordToJson corpus (fun r _ => record_roundtrip r)
